import Mathlib

/-!
Shallow embedding of the turnover-polling script in src/tv1-app.py.

Modelling conventions:
* Python floats are modelled as rationals (ℚ).
* Python round(x, 2) is modelled as round-half-to-even on hundredths.
* The history dict st.session_state.previous_turnover (Ticker -> Optional float)
  is an association list Ticker × Option ℚ, so a key holding the value None is
  distinguishable from an absent key, exactly as in a Python dict.
* The remote endpoint is an oracle Ticker → Option ℚ; an exception anywhere in
  get_live_turnover is the value none.
* A local wall-clock time of day is a number of seconds since midnight (ℕ).
-/

abbrev Ticker := String

abbrev Hist := List (Ticker × Option ℚ)

/-- Round-half-to-even of a rational to an integer, the tie-breaking used by
Python's builtin round. -/
def roundHalfEven (q : ℚ) : ℤ :=
  let f := ⌊q⌋
  let frac := q - f
  if frac < 1 / 2 then f
  else if 1 / 2 < frac then f + 1
  else if f % 2 = 0 then f else f + 1

/-- Python round(x, 2): round to 2 decimal places with banker's rounding. -/
def round2 (q : ℚ) : ℚ := (roundHalfEven (q * 100) : ℚ) / 100

/-- Dict read previous_turnover.get(s): none both for an absent key and for a
key whose stored value is None (src/tv1-app.py line 102). -/
def histGet : Hist → Ticker → Option ℚ
  | [], _ => none
  | (k, w) :: t, s => if k = s then w else histGet t s

/-- Dict key membership, s in previous_turnover. -/
def hasKey : Hist → Ticker → Bool
  | [], _ => false
  | (k, _) :: t, s => if k = s then true else hasKey t s

/-- Dict write previous_turnover[s] = v (src/tv1-app.py line 124): replaces the
value at an existing key, otherwise adds the key. -/
def histSet : Hist → Ticker → ℚ → Hist
  | [], s, v => [(s, some v)]
  | (k, w) :: t, s, v => if k = s then (k, some v) :: t else (k, w) :: histSet t s v

/-- Conversion of a raw traded value in rupees to crores,
round(turnover_raw / 1e7, 2) (src/tv1-app.py line 55). -/
def turnoverCrores (raw : ℚ) : ℚ := round2 (raw / 10000000)

/-- get_live_turnover (src/tv1-app.py lines 44-61): on a successful remote
response with traded value raw it returns the crore conversion; any exception
(network error, timeout, missing JSON field) yields none. -/
def get_live_turnover (remote : Ticker → Option ℚ) (s : Ticker) : Option ℚ :=
  (remote s).map turnoverCrores

/-- tradingview_link (src/tv1-app.py lines 67-68). -/
def tradingview_link (s : Ticker) : String :=
  "https://www.tradingview.com/chart/?symbol=NSE%3A" ++ s

/-- Failure substitution, current = prev if prev else 0 when the fetch returned
None (src/tv1-app.py lines 105-106). Python truthiness: both None and 0.0 are
falsy, so a stored zero also substitutes to 0. -/
def substCurrent (fetched : Option ℚ) (prev0 : Option ℚ) : ℚ :=
  match fetched with
  | some v => v
  | none =>
    match prev0 with
    | some p => if p = 0 then 0 else p
    | none => 0

/-- Cold-start baseline, if prev is None: prev = current
(src/tv1-app.py lines 109-110). -/
def basePrev (prev0 : Option ℚ) (current : ℚ) : ℚ :=
  match prev0 with
  | some p => p
  | none => current

/-- Percent-change computation with the zero guard,
((current - prev) / prev) * 100 if prev != 0 else 0.0
(src/tv1-app.py line 113). -/
def pct_change (current prev : ℚ) : ℚ :=
  if prev ≠ 0 then ((current - prev) / prev) * 100 else 0

/-- One table row (src/tv1-app.py lines 115-121). The timestamp cell is wall
clock at assembly time and carries no claimed property, so it is omitted. -/
structure DisplayRow where
  symbol : Ticker
  symbolCell : String
  previous : ℚ
  current : ℚ
  pct_change : ℚ
  deriving DecidableEq

/-- One iteration of the per-symbol update loop (src/tv1-app.py lines 100-124):
fetch, failure substitution, cold-start baseline, guarded percent change,
row assembly, unconditional history write. fetch is the per-cycle result of
get_live_turnover for each symbol. -/
def updateSymbol (fetch : Ticker → Option ℚ) (h : Hist) (s : Ticker) :
    DisplayRow × Hist :=
  let current := substCurrent (fetch s) (histGet h s)
  let prev := basePrev (histGet h s) current
  ({ symbol := s
     symbolCell := "[" ++ s ++ "](" ++ tradingview_link s ++ ")"
     previous := prev
     current := current
     pct_change := round2 (pct_change current prev) },
   histSet h s current)

/-- The full per-cycle loop, for s in symbols (src/tv1-app.py lines 98-124):
sequential, one row appended per symbol, history threaded through. -/
def runCycle (fetch : Ticker → Option ℚ) : List Ticker → Hist → List DisplayRow × Hist
  | [], h => ([], h)
  | s :: rest, h =>
    let p := updateSymbol fetch h s
    let q := runCycle fetch rest p.2
    (p.1 :: q.1, q.2)

/-- Seconds since local midnight for a clock reading hh:mm:ss. -/
def secondsOfDay (hh mm ss : ℕ) : ℕ := hh * 3600 + mm * 60 + ss

/-- is_market_time (src/tv1-app.py lines 74-76):
dtime(9, 20) <= now <= dtime(15, 0), both endpoints inclusive. -/
def is_market_time (t : ℕ) : Bool :=
  decide (secondsOfDay 9 20 0 ≤ t ∧ t ≤ secondsOfDay 15 0 0)

/-- Outcome of one top-to-bottom run of the script body. -/
inductive StepOutcome where
  | waiting (idleSeconds : ℕ)
  | active (rows : List DisplayRow) (hist : Hist) (idleSeconds : ℕ)
  deriving DecidableEq

/-- One top-to-bottom run of the script at local time t (src/tv1-app.py
lines 89-141): outside market hours it sleeps 60 seconds and reruns without
touching the loop; inside it runs the cycle and sleeps 300 seconds. The second
component lists the symbols for which a fetch was issued during the run. -/
def scriptStep (fetch : Ticker → Option ℚ) (syms : List Ticker) (h : Hist)
    (t : ℕ) : StepOutcome × List Ticker :=
  if is_market_time t then
    let p := runCycle fetch syms h
    (StepOutcome.active p.1 p.2 300, syms)
  else
    (StepOutcome.waiting 60, [])

-- Projection lemmas for the update step.

theorem updateSymbol_previous (f : Ticker → Option ℚ) (h : Hist) (s : Ticker) :
    (updateSymbol f h s).1.previous
      = basePrev (histGet h s) (substCurrent (f s) (histGet h s)) := rfl

theorem updateSymbol_current (f : Ticker → Option ℚ) (h : Hist) (s : Ticker) :
    (updateSymbol f h s).1.current = substCurrent (f s) (histGet h s) := rfl

theorem updateSymbol_pct (f : Ticker → Option ℚ) (h : Hist) (s : Ticker) :
    (updateSymbol f h s).1.pct_change
      = round2 (pct_change (substCurrent (f s) (histGet h s))
          (basePrev (histGet h s) (substCurrent (f s) (histGet h s)))) := rfl

theorem updateSymbol_symbol (f : Ticker → Option ℚ) (h : Hist) (s : Ticker) :
    (updateSymbol f h s).1.symbol = s := rfl

theorem updateSymbol_hist (f : Ticker → Option ℚ) (h : Hist) (s : Ticker) :
    (updateSymbol f h s).2 = histSet h s (substCurrent (f s) (histGet h s)) := rfl

-- Basic facts about the rounding and the percent-change guard.

theorem round2_zero : round2 0 = 0 := by
  norm_num [round2, roundHalfEven]

theorem pct_change_zero_prev (c : ℚ) : pct_change c 0 = 0 := by
  simp [pct_change]

theorem pct_change_self (c : ℚ) : pct_change c c = 0 := by
  by_cases hc : c = 0
  · simp [pct_change, hc]
  · simp [pct_change, hc]

-- Dictionary lemmas.

theorem histGet_histSet_self (h : Hist) (s : Ticker) (v : ℚ) :
    histGet (histSet h s v) s = some v := by
  induction h with
  | nil => simp [histSet, histGet]
  | cons kv t ih =>
    obtain ⟨k, w⟩ := kv
    by_cases hk : k = s
    · simp [histSet, histGet, hk]
    · simp [histSet, histGet, hk, ih]

theorem histGet_histSet_ne (h : Hist) (s t : Ticker) (v : ℚ) (hst : s ≠ t) :
    histGet (histSet h s v) t = histGet h t := by
  induction h with
  | nil => simp [histSet, histGet, hst]
  | cons kv tl ih =>
    obtain ⟨k, w⟩ := kv
    by_cases hk : k = s
    · subst hk
      simp [histSet, histGet, hst]
    · simp [histSet, histGet, hk, ih]

theorem hasKey_histSet_self (h : Hist) (s : Ticker) (v : ℚ) :
    hasKey (histSet h s v) s = true := by
  induction h with
  | nil => simp [histSet, hasKey]
  | cons kv t ih =>
    obtain ⟨k, w⟩ := kv
    by_cases hk : k = s
    · simp [histSet, hasKey, hk]
    · simp [histSet, hasKey, hk, ih]

theorem hasKey_histSet_of (h : Hist) (s t : Ticker) (v : ℚ)
    (ht : hasKey h t = true) : hasKey (histSet h s v) t = true := by
  induction h with
  | nil => simp [hasKey] at ht
  | cons kv tl ih =>
    obtain ⟨k, w⟩ := kv
    by_cases hk : k = s
    · subst hk
      by_cases hkt : k = t
      · simp [histSet, hasKey, hkt]
      · simp [hasKey, hkt] at ht
        simp [histSet, hasKey, hkt, ht]
    · by_cases hkt : k = t
      · subst hkt
        simp [histSet, hasKey, hk]
      · simp [hasKey, hkt] at ht
        simp [histSet, hasKey, hk, hkt, ih ht]

theorem histGet_none_of_not_hasKey (h : Hist) (s : Ticker)
    (hk : hasKey h s = false) : histGet h s = none := by
  induction h with
  | nil => simp [histGet]
  | cons kv t ih =>
    obtain ⟨k, w⟩ := kv
    by_cases hks : k = s
    · simp [hasKey, hks] at hk
    · simp [hasKey, hks] at hk
      simp [histGet, hks, ih hk]

-- Cycle-level lemmas.

theorem runCycle_nil (f : Ticker → Option ℚ) (h : Hist) :
    runCycle f [] h = ([], h) := rfl

theorem runCycle_cons (f : Ticker → Option ℚ) (s : Ticker) (rest : List Ticker)
    (h : Hist) :
    runCycle f (s :: rest) h
      = ((updateSymbol f h s).1 :: (runCycle f rest (updateSymbol f h s).2).1,
         (runCycle f rest (updateSymbol f h s).2).2) := rfl

/-- The cycle emits exactly one row per processed symbol, in input order. -/
theorem runCycle_symbols (f : Ticker → Option ℚ) (syms : List Ticker) (h : Hist) :
    ((runCycle f syms h).1).map DisplayRow.symbol = syms := by
  induction syms generalizing h with
  | nil => simp [runCycle]
  | cons s rest ih =>
    simp [runCycle_cons, updateSymbol_symbol, ih]

/-- Substituting from an already-substituted value is a fixed point: a second
iteration that sees the value the first one wrote computes the same current. -/
theorem substCurrent_fix (fe : Option ℚ) (p : Option ℚ) :
    substCurrent fe (some (substCurrent fe p)) = substCurrent fe p := by
  cases fe with
  | some v => rfl
  | none =>
    cases p with
    | none => simp [substCurrent]
    | some q =>
      by_cases hq : q = 0
      · simp [substCurrent, hq]
      · simp [substCurrent, hq]

/-- A history entry that is a fixed point of the substitution for its symbol
survives the rest of the cycle unchanged. -/
theorem runCycle_stable (f : Ticker → Option ℚ) (syms : List Ticker) :
    ∀ (h : Hist) (s : Ticker) (c : ℚ), histGet h s = some c →
      substCurrent (f s) (some c) = c →
      histGet (runCycle f syms h).2 s = some c := by
  induction syms with
  | nil =>
    intro h s c h1 _
    simpa [runCycle] using h1
  | cons a rest ih =>
    intro h s c h1 h2
    rw [runCycle_cons]
    by_cases has : a = s
    · subst has
      apply ih
      · rw [updateSymbol_hist, h1]
        rw [h2, histGet_histSet_self]
      · exact h2
    · apply ih
      · rw [updateSymbol_hist, histGet_histSet_ne _ _ _ _ has, h1]
      · exact h2

/-- Keys already in the history survive the whole cycle. -/
theorem runCycle_hasKey_mono (f : Ticker → Option ℚ) (syms : List Ticker) :
    ∀ (h : Hist) (t : Ticker), hasKey h t = true →
      hasKey (runCycle f syms h).2 t = true := by
  induction syms with
  | nil =>
    intro h t ht
    simpa [runCycle] using ht
  | cons a rest ih =>
    intro h t ht
    rw [runCycle_cons]
    exact ih _ _ (by rw [updateSymbol_hist]; exact hasKey_histSet_of _ _ _ _ ht)

/-- Every symbol processed in the cycle has a key in the final history. -/
theorem runCycle_hasKey (f : Ticker → Option ℚ) (syms : List Ticker) :
    ∀ (h : Hist) (t : Ticker), t ∈ syms →
      hasKey (runCycle f syms h).2 t = true := by
  induction syms with
  | nil =>
    intro h t ht
    simp at ht
  | cons a rest ih =>
    intro h t ht
    rw [runCycle_cons]
    rcases List.mem_cons.mp ht with rfl | hmem
    · exact runCycle_hasKey_mono f rest _ t
        (by rw [updateSymbol_hist]; exact hasKey_histSet_self _ _ _)
    · exact ih _ _ hmem

-- Claim theorems.

/-- C1: whenever the row's previous value is nonzero, the percent change shown
in the row is round(((current - previous) / previous) * 100, 2). -/
theorem c1_pct_change_formula (f : Ticker → Option ℚ) (h : Hist) (s : Ticker)
    (hp : (updateSymbol f h s).1.previous ≠ 0) :
    (updateSymbol f h s).1.pct_change
      = round2 ((((updateSymbol f h s).1.current
          - (updateSymbol f h s).1.previous)
            / (updateSymbol f h s).1.previous) * 100) := by
  rw [updateSymbol_pct, updateSymbol_current, updateSymbol_previous]
  rw [updateSymbol_previous] at hp
  rw [pct_change, if_pos hp]

/-- Witness for C1: previous 200, fetched current 210, shown change is
round(5, 2). -/
theorem c1_witness :
    (updateSymbol (fun _ => some 210) [("TCS", some 200)] "TCS").1.pct_change
      = round2 ((((updateSymbol (fun _ => some 210) [("TCS", some 200)]
          "TCS").1.current
        - (updateSymbol (fun _ => some 210) [("TCS", some 200)] "TCS").1.previous)
          / (updateSymbol (fun _ => some 210) [("TCS", some 200)]
              "TCS").1.previous) * 100) :=
  c1_pct_change_formula (fun _ => some 210) [("TCS", some 200)] "TCS" (by decide)

/-- C2: when the fetch for s fails, the cycle still emits a row for s; at the
step for s, current is the stored history value when one is present (otherwise
0), the shown percent change is 0.0, and that substituted current is written
back, leaving a present history entry unchanged. -/
theorem c2_fetch_failure (f : Ticker → Option ℚ) (syms : List Ticker) (h : Hist)
    (s : Ticker) (hf : f s = none) (hs : s ∈ syms) :
    (∃ r ∈ (runCycle f syms h).1, r.symbol = s) ∧
    (∀ p : ℚ, histGet h s = some p →
      (updateSymbol f h s).1.current = p ∧
      (updateSymbol f h s).1.pct_change = 0 ∧
      histGet (updateSymbol f h s).2 s = histGet h s) ∧
    (histGet h s = none →
      (updateSymbol f h s).1.current = 0 ∧
      (updateSymbol f h s).1.pct_change = 0 ∧
      histGet (updateSymbol f h s).2 s = some 0) := by
  refine ⟨?_, ?_, ?_⟩
  · have := runCycle_symbols f syms h
    rw [← this] at hs
    obtain ⟨r, hr, hrs⟩ := List.mem_map.mp hs
    exact ⟨r, hr, hrs⟩
  · intro p hp
    have hcur : (updateSymbol f h s).1.current = p := by
      rw [updateSymbol_current, hf, hp]
      by_cases hp0 : p = 0
      · simp [substCurrent, hp0]
      · simp [substCurrent, hp0]
    refine ⟨hcur, ?_, ?_⟩
    · rw [updateSymbol_pct, hf, hp]
      by_cases hp0 : p = 0
      · simp [substCurrent, basePrev, hp0, pct_change_zero_prev, round2_zero]
      · simp only [substCurrent, basePrev, if_neg hp0]
        rw [pct_change_self, round2_zero]
    · rw [updateSymbol_hist, hp]
      have hsub : substCurrent (f s) (some p) = p := by
        rw [hf]
        by_cases hp0 : p = 0
        · simp [substCurrent, hp0]
        · simp [substCurrent, hp0]
      rw [hsub, histGet_histSet_self]
  · intro hnone
    refine ⟨?_, ?_, ?_⟩
    · rw [updateSymbol_current, hf, hnone]; rfl
    · rw [updateSymbol_pct, hf, hnone]
      simp [substCurrent, basePrev, pct_change_zero_prev, round2_zero]
    · rw [updateSymbol_hist]
      have : substCurrent (f s) (histGet h s) = 0 := by
        rw [hf, hnone]; rfl
      rw [this, histGet_histSet_self]

/-- Witness for C2: scenario C of the spec, history holds 150 for HDFCBANK and
the fetch fails. -/
theorem c2_witness :
    ((∃ r ∈ (runCycle (fun _ => none) ["HDFCBANK"] [("HDFCBANK", some 150)]).1,
        r.symbol = "HDFCBANK") ∧
      (∀ p : ℚ, histGet [("HDFCBANK", some 150)] "HDFCBANK" = some p →
        (updateSymbol (fun _ => none) [("HDFCBANK", some 150)]
            "HDFCBANK").1.current = p ∧
        (updateSymbol (fun _ => none) [("HDFCBANK", some 150)]
            "HDFCBANK").1.pct_change = 0 ∧
        histGet (updateSymbol (fun _ => none) [("HDFCBANK", some 150)]
            "HDFCBANK").2 "HDFCBANK"
          = histGet [("HDFCBANK", some 150)] "HDFCBANK") ∧
      (histGet [("HDFCBANK", some 150)] "HDFCBANK" = none →
        (updateSymbol (fun _ => none) [("HDFCBANK", some 150)]
            "HDFCBANK").1.current = 0 ∧
        (updateSymbol (fun _ => none) [("HDFCBANK", some 150)]
            "HDFCBANK").1.pct_change = 0 ∧
        histGet (updateSymbol (fun _ => none) [("HDFCBANK", some 150)]
            "HDFCBANK").2 "HDFCBANK" = some 0)) :=
  c2_fetch_failure (fun _ => none) ["HDFCBANK"] [("HDFCBANK", some 150)]
    "HDFCBANK" rfl (by decide)

/-- C3: cold start with a successful fetch of v gives a row with
previous = v, current = v, percent change 0.0, and writes v to history. -/
theorem c3_cold_start (f : Ticker → Option ℚ) (h : Hist) (s : Ticker) (v : ℚ)
    (h0 : histGet h s = none) (hv : f s = some v) :
    (updateSymbol f h s).1.previous = v ∧
    (updateSymbol f h s).1.current = v ∧
    (updateSymbol f h s).1.pct_change = 0 ∧
    histGet (updateSymbol f h s).2 s = some v := by
  refine ⟨?_, ?_, ?_, ?_⟩
  · rw [updateSymbol_previous, h0, hv]
    rfl
  · rw [updateSymbol_current, h0, hv]
    rfl
  · rw [updateSymbol_pct, h0, hv]
    simp [substCurrent, basePrev, pct_change_self, round2_zero]
  · rw [updateSymbol_hist, h0, hv]
    have : substCurrent (some v) none = v := rfl
    rw [this, histGet_histSet_self]

/-- Witness for C3: scenario A of the spec, empty history, fetch returns
120.50 = 241/2 for RELIANCE. -/
theorem c3_witness :
    (updateSymbol (fun _ => some (241 / 2)) [] "RELIANCE").1.previous = 241 / 2 ∧
    (updateSymbol (fun _ => some (241 / 2)) [] "RELIANCE").1.current = 241 / 2 ∧
    (updateSymbol (fun _ => some (241 / 2)) [] "RELIANCE").1.pct_change = 0 ∧
    histGet (updateSymbol (fun _ => some (241 / 2)) [] "RELIANCE").2 "RELIANCE"
      = some (241 / 2) :=
  c3_cold_start (fun _ => some (241 / 2)) [] "RELIANCE" (241 / 2) rfl rfl

/-- C4: with a zero baseline the guarded branch is taken: the percent-change
computation returns 0.0 for every current value without evaluating the
division, and a row whose previous is 0 shows percent change 0.0. -/
theorem c4_zero_baseline (f : Ticker → Option ℚ) (h : Hist) (s : Ticker) (c : ℚ) :
    pct_change c 0 = 0 ∧
    ((updateSymbol f h s).1.previous = 0 → (updateSymbol f h s).1.pct_change = 0) := by
  refine ⟨pct_change_zero_prev c, ?_⟩
  intro hp
  rw [updateSymbol_previous] at hp
  rw [updateSymbol_pct, hp, pct_change_zero_prev, round2_zero]

/-- Witness for C4: stored baseline 0, fetched current 7, shown change 0.0. -/
theorem c4_witness :
    pct_change 7 0 = 0 ∧
    (updateSymbol (fun _ => some 7) [("A", some 0)] "A").1.pct_change = 0 :=
  ⟨(c4_zero_baseline (fun _ => some 7) [("A", some 0)] "A" 7).1,
   (c4_zero_baseline (fun _ => some 7) [("A", some 0)] "A" 7).2 (by decide)⟩

/-- C5: after a cycle, the history entry for each emitted row's symbol equals
that row's current value, for every tracked symbol, with the write
unconditional (fetch failures included). -/
theorem c5_history_matches_rows (f : Ticker → Option ℚ) (syms : List Ticker)
    (h : Hist) :
    ∀ r ∈ (runCycle f syms h).1,
      histGet (runCycle f syms h).2 r.symbol = some r.current := by
  induction syms generalizing h with
  | nil =>
    intro r hr
    simp [runCycle] at hr
  | cons a rest ih =>
    intro r hr
    rw [runCycle_cons] at hr ⊢
    rcases List.mem_cons.mp hr with rfl | hmem
    · rw [updateSymbol_symbol, updateSymbol_current]
      apply runCycle_stable
      · rw [updateSymbol_hist, histGet_histSet_self]
      · exact substCurrent_fix (f a) (histGet h a)
    · exact ih _ r hmem

/-- Witness for C5: one-symbol cycle with a successful fetch of 10. -/
theorem c5_witness :
    histGet (runCycle (fun _ => some 10) ["RELIANCE"] []).2
        (updateSymbol (fun _ => some 10) [] "RELIANCE").1.symbol
      = some (updateSymbol (fun _ => some 10) [] "RELIANCE").1.current :=
  c5_history_matches_rows (fun _ => some 10) ["RELIANCE"] []
    (updateSymbol (fun _ => some 10) [] "RELIANCE").1
    (by simp [runCycle_cons, runCycle_nil])

/-- C6: the market-time predicate holds exactly on the inclusive window
09:20:00 to 15:00:00, and outside it the script run issues no fetch and only
idles 60 seconds before the rerun re-checks the gate. -/
theorem c6_market_gate (f : Ticker → Option ℚ) (syms : List Ticker) (h : Hist)
    (t : ℕ) :
    (is_market_time t = true ↔
      (secondsOfDay 9 20 0 ≤ t ∧ t ≤ secondsOfDay 15 0 0)) ∧
    (¬(secondsOfDay 9 20 0 ≤ t ∧ t ≤ secondsOfDay 15 0 0) →
      scriptStep f syms h t = (StepOutcome.waiting 60, [])) := by
  constructor
  · simp [is_market_time]
  · intro hout
    have hmt : is_market_time t = false := by
      rw [is_market_time]
      exact decide_eq_false hout
    simp [scriptStep, hmt]

/-- Witness for C6: at midnight (t = 0) the script only waits 60 seconds. -/
theorem c6_witness :
    scriptStep (fun _ => none) ["RELIANCE"] [] 0 = (StepOutcome.waiting 60, []) :=
  (c6_market_gate (fun _ => none) ["RELIANCE"] [] 0).2 (by decide)

/-- C7: a cycle step whose external reading equals the stored history value is
idempotent: the history entry is unchanged and the shown change is 0.0. -/
theorem c7_idempotent (f : Ticker → Option ℚ) (h : Hist) (s : Ticker) (v : ℚ)
    (hh : histGet h s = some v) (hf : f s = some v) :
    histGet (updateSymbol f h s).2 s = histGet h s ∧
    (updateSymbol f h s).1.pct_change = 0 := by
  constructor
  · rw [updateSymbol_hist, hh, hf]
    have : substCurrent (some v) (some v) = v := rfl
    rw [this, histGet_histSet_self]
  · rw [updateSymbol_pct, hh, hf]
    have : substCurrent (some v) (some v) = v := rfl
    rw [this]
    simp [basePrev, pct_change_self, round2_zero]

/-- Witness for C7: stored 200 for TCS and the fetch returns 200 again. -/
theorem c7_witness :
    histGet (updateSymbol (fun _ => some 200) [("TCS", some 200)] "TCS").2 "TCS"
        = histGet [("TCS", some 200)] "TCS" ∧
    (updateSymbol (fun _ => some 200) [("TCS", some 200)] "TCS").1.pct_change
        = 0 :=
  c7_idempotent (fun _ => some 200) [("TCS", some 200)] "TCS" 200 rfl rfl

/-- C8: a successful remote reading v in rupees is reported as
round(v / 10000000, 2) crores in the row's current value. -/
theorem c8_crore_conversion (remote : Ticker → Option ℚ) (h : Hist) (s : Ticker)
    (v : ℚ) (hr : remote s = some v) :
    (updateSymbol (get_live_turnover remote) h s).1.current
      = round2 (v / 10000000) := by
  rw [updateSymbol_current]
  have hmap : get_live_turnover remote s = some (turnoverCrores v) := by
    rw [get_live_turnover, hr]
    rfl
  rw [hmap]
  rfl

/-- Witness for C8: raw traded value 123456789 rupees. -/
theorem c8_witness :
    (updateSymbol (get_live_turnover (fun _ => some 123456789)) [] "X").1.current
      = round2 (123456789 / 10000000) :=
  c8_crore_conversion (fun _ => some 123456789) [] "X" 123456789 rfl

/-- A rational that is the image of Python round(x, 2) for some x; equivalently
a value carrying at most two decimal places. 0 is round2 0. -/
def RoundedVal (q : ℚ) : Prop := ∃ x : ℚ, q = round2 x

theorem roundedVal_round2 (x : ℚ) : RoundedVal (round2 x) := ⟨x, rfl⟩

theorem roundedVal_zero : RoundedVal 0 := ⟨0, round2_zero.symm⟩

/-- The substituted current of a step whose fetch goes through
get_live_turnover is a rounded value whenever the stored baseline is. -/
theorem substCurrent_rounded (remote : Ticker → Option ℚ) (s : Ticker)
    (prev0 : Option ℚ) (hprev : ∀ p, prev0 = some p → RoundedVal p) :
    RoundedVal (substCurrent (get_live_turnover remote s) prev0) := by
  cases hr : remote s with
  | some v =>
    have hmap : get_live_turnover remote s = some (turnoverCrores v) := by
      rw [get_live_turnover, hr]
      rfl
    rw [hmap]
    exact ⟨v / 10000000, rfl⟩
  | none =>
    have hmap : get_live_turnover remote s = none := by
      rw [get_live_turnover, hr]
      rfl
    rw [hmap]
    cases prev0 with
    | none => exact roundedVal_zero
    | some p =>
      by_cases hp : p = 0
      · simp only [substCurrent, if_pos hp]
        exact roundedVal_zero
      · simp only [substCurrent, if_neg hp]
        exact hprev p rfl

theorem histSet_rounded (h : Hist) (s : Ticker) (v : ℚ)
    (hh : ∀ t q, histGet h t = some q → RoundedVal q) (hv : RoundedVal v) :
    ∀ t q, histGet (histSet h s v) t = some q → RoundedVal q := by
  intro t q hq
  by_cases hts : s = t
  · subst hts
    rw [histGet_histSet_self] at hq
    cases hq
    exact hv
  · rw [histGet_histSet_ne _ _ _ _ hts] at hq
    exact hh t q hq

/-- C9: starting from a history whose stored values are all rounded, after a
cycle whose fetches go through get_live_turnover every stored history value is
still a rounded value (0 or round(x, 2)), and every displayed previous and
current in the rows is too, even though row assembly never re-rounds them. -/
theorem c9_values_rounded (remote : Ticker → Option ℚ) (syms : List Ticker)
    (h : Hist) (hh : ∀ t q, histGet h t = some q → RoundedVal q) :
    (∀ t q, histGet (runCycle (get_live_turnover remote) syms h).2 t = some q →
      RoundedVal q) ∧
    (∀ r ∈ (runCycle (get_live_turnover remote) syms h).1,
      RoundedVal r.previous ∧ RoundedVal r.current) := by
  induction syms generalizing h with
  | nil =>
    refine ⟨?_, ?_⟩
    · simpa [runCycle] using hh
    · intro r hr
      simp [runCycle] at hr
  | cons a rest ih =>
    have hcur : RoundedVal
        (substCurrent (get_live_turnover remote a) (histGet h a)) :=
      substCurrent_rounded remote a (histGet h a) (fun p hp => hh a p hp)
    have hh1 : ∀ t q,
        histGet (updateSymbol (get_live_turnover remote) h a).2 t = some q →
          RoundedVal q := by
      rw [updateSymbol_hist]
      exact histSet_rounded h a _ hh hcur
    obtain ⟨ih1, ih2⟩ := ih _ hh1
    refine ⟨?_, ?_⟩
    · rw [runCycle_cons]
      exact ih1
    · intro r hr
      rw [runCycle_cons] at hr
      rcases List.mem_cons.mp hr with rfl | hmem
      · refine ⟨?_, ?_⟩
        · rw [updateSymbol_previous]
          cases hha : histGet h a with
          | none =>
            rw [hha] at hcur
            simpa [basePrev] using hcur
          | some p =>
            simp only [basePrev]
            exact hh a p hha
        · rw [updateSymbol_current]
          exact hcur
      · exact ih2 r hmem

/-- Witness for C9: empty history, one symbol, failing fetch; the displayed
current and the stored 0 are rounded values. -/
theorem c9_witness :
    RoundedVal
        ((updateSymbol (get_live_turnover (fun _ => none)) [] "A").1.current) ∧
    RoundedVal 0 := by
  have hc := c9_values_rounded (fun _ => none) ["A"] []
    (fun t q hq => Option.noConfusion hq)
  refine ⟨?_, ?_⟩
  · exact (hc.2 (updateSymbol (get_live_turnover (fun _ => none)) [] "A").1
      (by simp [runCycle_cons, runCycle_nil])).2
  · exact hc.1 "A" 0 (by decide)

/-- C10: a symbol with no key in the history map is a cold start: the lookup
is absent, previous equals current, the shown change is 0.0, the key is added,
and after a full cycle the map's domain covers every processed symbol. -/
theorem c10_missing_key (f : Ticker → Option ℚ) (syms : List Ticker) (h : Hist)
    (s : Ticker) (hk : hasKey h s = false) :
    (histGet h s = none ∧
     (updateSymbol f h s).1.previous = (updateSymbol f h s).1.current ∧
     (updateSymbol f h s).1.pct_change = 0 ∧
     hasKey (updateSymbol f h s).2 s = true) ∧
    (∀ t ∈ syms, hasKey (runCycle f syms h).2 t = true) := by
  have h0 : histGet h s = none := histGet_none_of_not_hasKey h s hk
  refine ⟨⟨h0, ?_, ?_, ?_⟩, ?_⟩
  · rw [updateSymbol_previous, updateSymbol_current, h0]
    rfl
  · rw [updateSymbol_pct, h0]
    simp [basePrev, pct_change_self, round2_zero]
  · rw [updateSymbol_hist]
    exact hasKey_histSet_self _ _ _
  · intro t ht
    exact runCycle_hasKey f syms h t ht

/-- Witness for C10: key A only, operator-entered symbol B processed. -/
theorem c10_witness :
    histGet [("A", some 1)] "B" = none ∧
    (updateSymbol (fun _ => none) [("A", some 1)] "B").1.previous
      = (updateSymbol (fun _ => none) [("A", some 1)] "B").1.current ∧
    (updateSymbol (fun _ => none) [("A", some 1)] "B").1.pct_change = 0 ∧
    hasKey (updateSymbol (fun _ => none) [("A", some 1)] "B").2 "B" = true ∧
    hasKey (runCycle (fun _ => none) ["B"] [("A", some 1)]).2 "B" = true := by
  have hc := c10_missing_key (fun _ => none) ["B"] [("A", some 1)] "B" (by decide)
  exact ⟨hc.1.1, hc.1.2.1, hc.1.2.2.1, hc.1.2.2.2, hc.2 "B" (by decide)⟩
